import Mathlib

/-!
Verification development for the wradlib `io.py` decoders (DWD DX, DWD
RADOLAN composite, Rainbow blob layout).  The Python source is shallowly
embedded: strings are lists of characters, Python exceptions are an
explicit error type, machine integers are `Nat`/`Int` with explicit
masking, and the floating-point precision factor is modelled as an exact
rational (the in-place multiplication of an integer numpy array by a
float is modelled as exact rational multiplication followed by the
truncating cast back to integer that the in-place unsafe cast performs).
-/

/-- Python exception kinds that the embedded code can raise. -/
inductive PyErr where
  | keyError (k : String)
  | valueError
  | indexError
  | assertionError
  | typeError
  deriving DecidableEq, Repr

/-- Python 2 byte strings are modelled as lists of characters. -/
abbrev Str := List Char

/-- Conversion from a Lean string literal to the model string type. -/
def str (s : String) : Str := s.toList

/-- Test whether the first list is a leading segment of the second. -/
def strStarts : Str → Str → Bool
  | [], _ => true
  | _ :: _, [] => false
  | a :: as, b :: bs => a == b && strStarts as bs

/-- Position of the first occurrence of `sub` in `s`, if any. -/
def pyFindAux (sub : Str) : Str → Option ℕ
  | [] => if sub == [] then some 0 else none
  | s@(_ :: t) => if strStarts sub s then some 0 else (pyFindAux sub t).map (· + 1)

/-- Python `s.find(sub)`: first index of `sub` in `s`, or `-1` if absent. -/
def pyFind (s sub : Str) : ℤ :=
  match pyFindAux sub s with
  | some i => (i : ℤ)
  | none => -1

/-- Python slicing `s[a:b]` with clamping and negative-index wrapping. -/
def pySlice (s : Str) (a b : ℤ) : Str :=
  let n : ℤ := s.length
  let lo : ℤ := if a < 0 then max (n + a) 0 else min a n
  let hi : ℤ := if b < 0 then max (n + b) 0 else min b n
  (s.take hi.toNat).drop lo.toNat

/-- Python slicing `s[a:]` to the end of the string. -/
def pySliceFrom (s : Str) (a : ℤ) : Str := pySlice s a s.length

/-- Python `s.split(sep)` for a one-character separator: `""` yields
`[""]`, and empty fields around separators are kept. -/
def pySplitChar (sep : Char) : Str → List Str
  | [] => [[]]
  | c :: rest =>
    let r := pySplitChar sep rest
    if c == sep then [] :: r
    else
      match r with
      | h :: t => (c :: h) :: t
      | [] => [[c]]

/-- Whitespace characters stripped by Python `str.strip()`. -/
def isPyWs (c : Char) : Bool :=
  c == ' ' || c == '\t' || c == '\n' || c == '\r' || c == Char.ofNat 11 || c == Char.ofNat 12

/-- Python `s.strip()`: remove leading and trailing whitespace. -/
def pyStripWs (s : Str) : Str :=
  ((s.dropWhile isPyWs).reverse.dropWhile isPyWs).reverse

/-- Python `s.strip(t)` for a one-character strip set. -/
def pyStripChar (t : Char) (s : Str) : Str :=
  ((s.dropWhile (· == t)).reverse.dropWhile (· == t)).reverse

/-- Numeric value of a decimal digit character. -/
def digitVal (c : Char) : ℕ := c.toNat - 48

/-- Test that every character is a decimal digit. -/
def allDigits (s : Str) : Bool := s.all (fun c => c.isDigit)

/-- Value of a nonempty string of decimal digits. -/
def digitsToNat (s : Str) : ℕ := s.foldl (fun acc c => 10 * acc + digitVal c) 0

/-- Python `int(s)`: strip whitespace, optional sign, decimal digits;
anything else raises `ValueError`. -/
def pyInt (s : Str) : Except PyErr ℤ :=
  match pyStripWs s with
  | '+' :: ds => if ds ≠ [] ∧ allDigits ds = true then .ok (digitsToNat ds) else .error .valueError
  | '-' :: ds => if ds ≠ [] ∧ allDigits ds = true then .ok (-(digitsToNat ds : ℤ)) else .error .valueError
  | ds => if ds ≠ [] ∧ allDigits ds = true then .ok (digitsToNat ds) else .error .valueError

/-- Python `float(s)` restricted to plain decimal notation (the only form
occurring in the fixed-width header fields); the value is exact. -/
def pyFloat (s : Str) : Except PyErr ℚ :=
  let t := pyStripWs s
  let su : ℤ × Str :=
    match t with
    | '+' :: r => (1, r)
    | '-' :: r => (-1, r)
    | r => (1, r)
  match pySplitChar '.' su.2 with
  | [ip] =>
    if ip ≠ [] ∧ allDigits ip = true then .ok (mkRat (su.1 * digitsToNat ip) 1)
    else .error .valueError
  | [ip, fp] =>
    if (ip ≠ [] ∨ fp ≠ []) ∧ allDigits ip = true ∧ allDigits fp = true then
      .ok (mkRat (su.1 * (digitsToNat ip * 10 ^ fp.length + digitsToNat fp)) (10 ^ fp.length))
    else .error .valueError
  | _ => .error .valueError

/-- Python `10 ** e` for an integer exponent, as an exact rational (for
negative exponents Python produces a float; it is modelled exactly). -/
def pyPow10 (e : ℤ) : ℚ :=
  if 0 ≤ e then mkRat ((10 : ℤ) ^ e.toNat) 1 else mkRat 1 ((10 : ℕ) ^ (-e).toNat)

/-- Integer result of multiplying integer `v` by rational `q` and casting
back to integer with C-style truncation toward zero (the behaviour of an
in-place numpy multiply of an int array by a float scalar). -/
def intTimesRatTrunc (v : ℤ) (q : ℚ) : ℤ :=
  let p := v * q.num
  if 0 ≤ p then ((p.toNat / q.den : ℕ) : ℤ) else -(((-p).toNat / q.den : ℕ) : ℤ)

/-- Indices of the elements satisfying `p`, in increasing order
(model of `np.where(p(arr))[0]`). -/
def indicesWhere (p : α → Bool) : List α → List ℕ
  | [] => []
  | a :: l => (if p a then [0] else []) ++ (indicesWhere p l).map (· + 1)

/-- Python list indexing `l[i]`, raising `IndexError` when out of range. -/
def listIdx (l : List α) (i : ℕ) : Except PyErr α :=
  match l[i]? with
  | some a => .ok a
  | none => .error .indexError

/-- Map with the element index, starting from `i`. -/
def mapIdxAux (f : ℕ → α → β) : ℕ → List α → List β
  | _, [] => []
  | i, a :: l => f i a :: mapIdxAux f (i + 1) l

/-- Fancy-indexing assignment `arr[idxs] = f(arr[idxs])`. -/
def setIdxs (l : List ℤ) (idxs : List ℕ) (f : ℤ → ℤ) : List ℤ :=
  mapIdxAux (fun i v => if idxs.contains i then f v else v) 0 l

/-- Split a flat list into `nrow` consecutive rows of `ncol` elements. -/
def chunkRows : ℕ → ℕ → List ℤ → List (List ℤ)
  | 0, _, _ => []
  | r + 1, c, l => l.take c :: chunkRows r c (l.drop c)

/-- Model of `arr.reshape((nrow, ncol))`: row-major reshaping, raising
`ValueError` when the element count does not match. -/
def reshapeGrid (nrow ncol : ℕ) (l : List ℤ) : Except PyErr (List (List ℤ)) :=
  if l.length = nrow * ncol then .ok (chunkRows nrow ncol l) else .error .valueError

/-- Model of `np.frombuffer(b, dtype=uint16)` on a little-endian host:
consecutive byte pairs become 16-bit values; an odd byte count raises. -/
def u16le : Str → Except PyErr (List ℕ)
  | [] => .ok []
  | _ :: [] => .error .valueError
  | a :: b :: r =>
    match u16le r with
    | .ok l => .ok ((a.toNat + 256 * b.toNat) :: l)
    | .error e => .error e

/-! ## DX decoder (`unpackDX`, `parse_DX_header`, pieces of `readDX`) -/

/-- Flag predicate of `unpackDX`: bit 13 (value 4096) marks a
zero-compression count. -/
def dxFlagged (v : ℕ) : Bool := v &&& 4096 ≠ 0

/-- Loop body of the performance version of `unpackDX`: given the sorted
list of flagged positions, emit the zero run of each flagged value and the
raw data between consecutive flags, then the data after the last flag. -/
def unpackDXLoop (raw : List ℕ) : List ℕ → List ℕ
  | [] => []
  | [i] => List.replicate (raw.getD i 0 &&& 4095) 0 ++ raw.drop (i + 1)
  | i :: j :: rest =>
    List.replicate (raw.getD i 0 &&& 4095) 0 ++ ((raw.take j).drop (i + 1))
      ++ unpackDXLoop raw (j :: rest)

/-- Model of `unpackDX(raw)`: removes the DWD DX bit-13 zero packing.
When no value is flagged the source asserts `raw.size == 128` and returns
`raw` unchanged; otherwise it expands every flagged value into its zero
run and copies the unflagged values. -/
def unpackDX (raw : List ℕ) : Except PyErr (List ℕ) :=
  match indicesWhere dxFlagged raw with
  | [] => if raw.length = 128 then .ok raw else .error .assertionError
  | i :: rest => .ok (raw.take i ++ unpackDXLoop raw (i :: rest))

/-- Specification of the zero-run expansion in the words of the claim: a
flagged value expands to `value &&& 4095` zero bins, an unflagged value is
emitted exactly once. -/
def rleExpand (raw : List ℕ) : List ℕ :=
  raw.flatMap (fun v => if dxFlagged v then List.replicate (v &&& 4095) 0 else [v])

/-- Calendar helper for the strict timestamp check of `strptime`. -/
def daysInMonth (m y : ℕ) : ℕ :=
  if m = 2 then (if y % 4 = 0 ∧ (y % 100 ≠ 0 ∨ y % 400 = 0) then 29 else 28)
  else if m = 4 ∨ m = 6 ∨ m = 9 ∨ m = 11 then 30
  else 31

/-- Timestamp record produced by the DX header field reordering. -/
structure DXTime where
  day : ℕ
  hour : ℕ
  minute : ℕ
  month : ℕ
  year : ℕ
  sec : ℕ
  deriving DecidableEq, Repr

/-- Model of `datetime.strptime(s, "%d%H%M%m%y%S")` on the 12-character
string assembled by `parse_DX_header`: two-digit fields with the range
checks (and the century pivot for `%y`) that `strptime` enforces. -/
def strptime_dHMmyS (s : Str) : Except PyErr DXTime :=
  match s with
  | [d1, d2, h1, h2, n1, n2, m1, m2, y1, y2, s1, s2] =>
    if allDigits s = true then
      let dd := 10 * digitVal d1 + digitVal d2
      let hh := 10 * digitVal h1 + digitVal h2
      let nn := 10 * digitVal n1 + digitVal n2
      let mm := 10 * digitVal m1 + digitVal m2
      let yy := 10 * digitVal y1 + digitVal y2
      let ss := 10 * digitVal s1 + digitVal s2
      let year := if yy ≤ 68 then 2000 + yy else 1900 + yy
      if 1 ≤ mm ∧ mm ≤ 12 ∧ 1 ≤ dd ∧ dd ≤ daysInMonth mm year ∧ hh ≤ 23 ∧ nn ≤ 59 ∧ ss ≤ 61 then
        .ok ⟨dd, hh, nn, mm, year, ss⟩
      else .error .valueError
    else .error .valueError
  | _ => .error .valueError

/-- Header record assembled by `parse_DX_header`. -/
structure DXHeader where
  producttype : Str
  time : DXTime
  radarid : Str
  bytes : ℤ
  version : Str
  cluttermap : ℤ
  dopplerfilter : ℤ
  statfilter : ℤ
  elevprofile : List ℚ
  message : Str
  deriving DecidableEq, Repr

/-- Model of `parse_DX_header(header)`: fixed-offset fields, then tag
markers located with `str.find` (which yields `-1` when the marker is
absent — the source never checks the result), each followed by its
fixed-width field. -/
def parse_DX_header (header : Str) : Except PyErr DXHeader := do
  let producttype := pySlice header 0 2
  let time ← strptime_dHMmyS (pySlice header 2 8 ++ pySlice header 13 17 ++ str "00")
  let radarid := pySlice header 8 13
  let posBY := pyFind header (str "BY")
  let posVS := pyFind header (str "VS")
  let posCO := pyFind header (str "CO")
  let posCD := pyFind header (str "CD")
  let posCS := pyFind header (str "CS")
  let posEP := pyFind header (str "EP")
  let posMS := pyFind header (str "MS")
  let bytes ← pyInt (pySlice header (posBY + 2) (posBY + 7))
  let version := pySlice header (posVS + 2) (posVS + 4)
  let cluttermap ← pyInt (pySlice header (posCO + 2) (posCO + 3))
  let dopplerfilter ← pyInt (pySlice header (posCD + 2) (posCD + 3))
  let statfilter ← pyInt (pySlice header (posCS + 2) (posCS + 3))
  let elevprofile ← (List.range 8).mapM
    (fun i => pyFloat (pySlice header (posEP + 2 + 3 * i) (posEP + 2 + 3 * (i + 1))))
  let msgLen ← pyInt (pySlice header (posMS + 2) (posMS + 5))
  let message := pySlice header (posMS + 5) (posMS + 5 + msgLen)
  return ⟨producttype, time, radarid, bytes, version, cluttermap, dopplerfilter,
          statfilter, elevprofile, message⟩

/-- Payload length computation of `readDX`: `buflen = bytes - len(header)`,
and one byte less whenever that is odd. -/
def readDX_buflen (bytes hlen : ℤ) : ℤ :=
  let buflen := bytes - hlen
  if buflen % 2 ≠ 0 then buflen - 1 else buflen

/-- Payload length in the words of the claim: the final byte is dropped
exactly when the length is odd while the header length is even. -/
def buflenSpec (bytes hlen : ℤ) : ℤ :=
  let buflen := bytes - hlen
  if buflen % 2 ≠ 0 ∧ hlen % 2 = 0 then buflen - 1 else buflen

/-- Fuel-indexed model of the `readDX` header-scan loop.  Reading one
character of an exhausted source yields the empty string, which is
appended to the header (a no-op) unless a terminator was already seen.
The scan result is the header (terminator run included, as in the source)
paired with the bytes the payload read starts at after `f.seek`;
`none` means the fuel ran out with the loop still running. -/
def dxScanFuel : ℕ → Str → Str → Bool → Option (Str × Str)
  | 0, _, _, _ => none
  | n + 1, rem, hdr, atend =>
    match rem with
    | [] => if atend then some (hdr, []) else dxScanFuel n [] hdr atend
    | c :: r =>
      if c == Char.ofNat 3 then dxScanFuel n r (hdr ++ [c]) true
      else if atend then some (hdr, c :: r)
      else dxScanFuel n r (hdr ++ [c]) atend

/-- Fuel-indexed model of the `read_RADOLAN_composite` header-scan loop:
it stops at the first terminator byte (excluded from the header); at the
end of an exhausted source the empty read keeps the loop running. -/
def radScanFuel : ℕ → Str → Str → Option (Str × Str)
  | 0, _, _ => none
  | n + 1, rem, hdr =>
    match rem with
    | [] => radScanFuel n [] hdr
    | c :: r => if c == Char.ofNat 3 then some (hdr, r) else radScanFuel n r (hdr ++ [c])

/-! ## RADOLAN composite decoder -/

/-- Values stored in the RADOLAN header attribute dictionary. -/
inductive RVal where
  | vs (s : Str)
  | vi (n : ℤ)
  | vq (q : ℚ)
  | vlist (l : List Str)
  | vidx (l : List ℕ)
  deriving DecidableEq, Repr

/-- Python dictionary read `d[k]`, raising `KeyError` when absent. -/
def dictGet (d : List (String × RVal)) (k : String) : Except PyErr RVal :=
  match d.find? (fun e => e.1 == k) with
  | some e => .ok e.2
  | none => .error (.keyError k)

/-- Model of `parse_DWD_quant_composite_header(header)`.  Note that the
source stores only the keys below: in particular neither `radarid` nor
`producttype` is ever written (the comment in the source mentions the
radar location id, but no code extracts it). -/
def parse_DWD_quant_composite_header (header : Str) : Except PyErr (List (String × RVal)) := do
  let posVS := pyFind header (str "VS")
  let posSW := pyFind header (str "SW")
  let posPR := pyFind header (str "PR")
  let posINT := pyFind header (str "INT")
  let posGP := pyFind header (str "GP")
  let posMS := pyFind header (str "MS")
  let maxrange ←
    if posVS > -1 then do
      let code ← pyInt (pySlice header (posVS + 2) (posVS + 4))
      match code with
      | 0 => pure (str "100 km and 128 km (mixed)")
      | 1 => pure (str "100 km")
      | 2 => pure (str "128 km")
      | 3 => pure (str "150 km")
      | _ => .error (.keyError "maxrange code")
    else pure (str "100 km")
  let radolanversion := pySlice header (posSW + 2) (posSW + 11)
  let prExp ← pyInt (pySlice header (posPR + 4) (posPR + 7))
  let precision := pyPow10 prExp
  let intMinutes ← pyInt (pySlice header (posINT + 3) (posINT + 7))
  let intervalseconds := intMinutes * 60
  let dimstrings := pySplitChar 'x' (pyStripWs (pySlice header (posGP + 2) (posGP + 11)))
  let d0 ← listIdx dimstrings 0
  let d1 ← listIdx dimstrings 1
  let nrow ← pyInt d0
  let ncol ← pyInt d1
  let parts := pySplitChar '<' (pyStripWs (pySliceFrom header (posMS + 2)))
  let p1 ← listIdx parts 1
  let locationstring := pyStripChar '>' (pyStripWs p1)
  let radarlocations := pySplitChar ',' locationstring
  return [("maxrange", RVal.vs maxrange), ("radolanversion", RVal.vs radolanversion),
          ("precision", RVal.vq precision), ("intervalseconds", RVal.vi intervalseconds),
          ("nrow", RVal.vi nrow), ("ncol", RVal.vi ncol),
          ("radarlocations", RVal.vlist radarlocations)]

/-- Model of the `producttype == "RX"` payload branch of
`read_RADOLAN_composite`: one byte per cell, byte 250 replaced by the
nodata value, clutter indices are the positions holding 249 after that
substitution, then a row-major reshape. -/
def radolanRXDecode (nrow ncol : ℕ) (nodata : ℤ) (payload : List ℕ) :
    Except PyErr (List (List ℤ) × List ℕ) :=
  let indat := payload.take (nrow * ncol)
  let arr : List ℤ := indat.map (fun b => Int.ofNat b)
  let arr := arr.map (fun v => if v = 250 then nodata else v)
  let clutter := indicesWhere (fun v => v = 249) arr
  match reshapeGrid nrow ncol arr with
  | .ok grid => .ok (grid, clutter)
  | .error e => .error e

/-- Model of the 16-bit payload branch of `read_RADOLAN_composite`:
flag bits 14/15/16 are collected from the raw values, the low 12 bits are
kept, values are negated at the negative-flag positions for product "RD",
the integer array is multiplied in place by the precision factor (a
truncating cast for fractional precisions), and only then are the nodata
positions overwritten with the sentinel. -/
def radolan16Decode (producttype : Str) (precision : ℚ) (nrow ncol : ℕ) (nodata : ℤ)
    (raw : List ℕ) : Except PyErr (List (List ℤ) × List ℕ) :=
  let indat := raw.take (nrow * ncol)
  let nodataIdx := indicesWhere (fun v => v &&& 8192 ≠ 0) indat
  let negativeIdx := indicesWhere (fun v => v &&& 16384 ≠ 0) indat
  let clutterIdx := indicesWhere (fun v => v &&& 32768 ≠ 0) indat
  let arr : List ℤ := indat.map (fun v => ((v &&& 4095 : ℕ) : ℤ))
  let arr := if producttype == str "RD" then setIdxs arr negativeIdx (fun v => -v) else arr
  let arr := arr.map (fun v => intTimesRatTrunc v precision)
  let arr := setIdxs arr nodataIdx (fun _ => nodata)
  match reshapeGrid nrow ncol arr with
  | .ok grid => .ok (grid, clutterIdx)
  | .error e => .error e

/-- Result record of `read_RADOLAN_composite`. -/
structure RadolanOut where
  data : List (List ℤ)
  attrs : List (String × RVal)
  deriving DecidableEq, Repr

/-- Coercion of a stored attribute to an integer. -/
def rvalAsInt : RVal → Except PyErr ℤ
  | .vi n => .ok n
  | _ => .error .typeError

/-- Coercion of a stored attribute to a rational. -/
def rvalAsQ : RVal → Except PyErr ℚ
  | .vq q => .ok q
  | _ => .error .typeError

/-- Coercion of a stored attribute to a string. -/
def rvalAsStr : RVal → Except PyErr Str
  | .vs s => .ok s
  | _ => .error .typeError

/-- Fuel-indexed model of `read_RADOLAN_composite(fname, missing)` on the
full file content: scan the header, parse it, append the nodata flag, then
read `attrs["radarid"]` (the comparison against "10000" that triggers the
non-composite warning; the warning itself does not change the result),
dispatch on `attrs["producttype"]` and decode the payload.  `none` means
the header scan ran out of fuel with the loop still running. -/
def read_RADOLAN_composite (fuel : ℕ) (content : Str) (missing : ℤ) :
    Option (Except PyErr RadolanOut) :=
  match radScanFuel fuel content [] with
  | none => none
  | some (header, rest) =>
    some (do
      let attrs ← parse_DWD_quant_composite_header header
      let attrs := attrs ++ [("nodataflag", RVal.vi missing)]
      let radarid ← dictGet attrs "radarid"
      let producttype ← dictGet attrs "producttype"
      let nrowV ← dictGet attrs "nrow"
      let nrow ← rvalAsInt nrowV
      let ncolV ← dictGet attrs "ncol"
      let ncol ← rvalAsInt ncolV
      let _ := radarid
      if producttype = RVal.vs (str "RX") then do
        let gc ← radolanRXDecode nrow.toNat ncol.toNat missing (rest.map Char.toNat)
        pure ⟨gc.1, attrs ++ [("cluttermask", RVal.vidx gc.2)]⟩
      else do
        let precV ← dictGet attrs "precision"
        let precision ← rvalAsQ precV
        let ptStr ← rvalAsStr producttype
        let raw ← u16le (pySlice rest 0 (nrow * ncol * 2))
        let gc ← radolan16Decode ptStr precision nrow.toNat ncol.toNat missing raw
        pure ⟨gc.1, attrs ++ [("cluttermask", RVal.vidx gc.2)]⟩)

/-! ## Rainbow blob layout and header tree -/

/-- Model of `get_RB_data_layout(datadepth)`: the byte order marker is the
opposite of the host byte order, the element width is the Python 2 integer
division `datadepth / 8`, and only widths 1, 2 and 4 are accepted. -/
def get_RB_data_layout (hostBigEndian : Bool) (datadepth : ℤ) : Except PyErr (ℤ × Str) :=
  let byteorder : Char := if hostBigEndian = false then '>' else '<'
  let datawidth := Int.fdiv datadepth 8
  if datawidth = 1 ∨ datawidth = 2 ∨ datawidth = 4 then
    .ok (datawidth, byteorder :: 'u' :: Nat.toDigits 10 datawidth.toNat)
  else .error .valueError

/-- Rainbow XML header tree node: name, text value, attribute map, and
ordered buckets of same-name children (`RainbowDomNode` in the source). -/
inductive RainbowDomNode where
  | mk : Str → Str → List (Str × Str) → List (Str × List RainbowDomNode) → RainbowDomNode

/-- Node name. -/
def RainbowDomNode.name : RainbowDomNode → Str
  | .mk n _ _ _ => n

/-- Node text value. -/
def RainbowDomNode.value : RainbowDomNode → Str
  | .mk _ v _ _ => v

/-- Attribute map of the node. -/
def RainbowDomNode.attrMap : RainbowDomNode → List (Str × Str)
  | .mk _ _ a _ => a

/-- Child buckets of the node, keyed by child name. -/
def RainbowDomNode.childMap : RainbowDomNode → List (Str × List RainbowDomNode)
  | .mk _ _ _ c => c

/-- Keyed lookup in an association list with string keys. -/
def lookupStr (m : List (Str × α)) (k : Str) : Option α :=
  match m with
  | [] => none
  | (k2, v) :: r => if k2 == k then some v else lookupStr r k

/-- Model of `RainbowDomNode.attr(tag)`: the attribute value, or `None`
when the attribute does not exist. -/
def RainbowDomNode.attr (n : RainbowDomNode) (tag : Str) : Option Str :=
  lookupStr n.attrMap tag

/-- Model of `RainbowDomNode.hasAttr(tag)`. -/
def RainbowDomNode.hasAttr (n : RainbowDomNode) (tag : Str) : Bool :=
  (n.attr tag).isSome

/-- Model of `RainbowDomNode._splitTag(tag)`: split an optional "@attr" or
"@attr=value" suffix off a path segment; a segment with more than one "@"
(or attribute part with more than one "=") makes the tuple unpacking in
the source raise. -/
def splitTag (tag : Str) : Except PyErr (Str × Option Str × Option Str) :=
  if tag.any (fun c => c == '@') then
    match pySplitChar '@' tag with
    | [t, a] =>
      if a.any (fun c => c == '=') then
        match pySplitChar '=' a with
        | [a2, v] => .ok (t, some a2, some v)
        | _ => .error .valueError
      else .ok (t, some a, none)
    | _ => .error .valueError
  else .ok (tag, none, none)

/-- Filter a child bucket by the optional attribute predicate of one path
segment, exactly as the two list comprehensions in `nodeList` do. -/
def nodeListFilter (bucket : List RainbowDomNode) (a av : Option Str) : List RainbowDomNode :=
  match a with
  | none => bucket
  | some t =>
    match av with
    | some v => bucket.filter (fun n => n.attr t == some v)
    | none => bucket.filter (fun n => n.hasAttr t)

/-- Loop of `RainbowDomNode.nodeList` over the split path segments: a
missing bucket returns `[]`, an empty filter result breaks with `[]`, and
otherwise the walk continues from the FIRST matching node; the matches of
the last segment are returned. -/
def RainbowDomNode.nodeListAux : RainbowDomNode → List Str → Except PyErr (List RainbowDomNode)
  | _, [] => .ok []
  | cur, tag :: rest =>
    match splitTag tag with
    | .error e => .error e
    | .ok (t, a, av) =>
      match lookupStr cur.childMap t with
      | none => .ok []
      | some bucket =>
        match nodeListFilter bucket a av with
        | [] => .ok []
        | n0 :: ns =>
          match rest with
          | [] => .ok (n0 :: ns)
          | _ :: _ => RainbowDomNode.nodeListAux n0 rest

/-- Model of `RainbowDomNode.nodeList(path)`. -/
def RainbowDomNode.nodeList (n : RainbowDomNode) (path : Str) :
    Except PyErr (List RainbowDomNode) :=
  RainbowDomNode.nodeListAux n (pySplitChar '/' path)

/-- Predicate of one path segment in the words of the claim. -/
def segMatches (a av : Option Str) (n : RainbowDomNode) : Bool :=
  match a with
  | none => true
  | some t =>
    match av with
    | some v => n.attr t == some v
    | none => n.hasAttr t

/-- All nodes of the same-name child bucket satisfying the segment
predicate (spec-side companion of `nodeListFilter`). -/
def allMatches (cur : RainbowDomNode) (t : Str) (a av : Option Str) : List RainbowDomNode :=
  ((lookupStr cur.childMap t).getD []).filter (segMatches a av)

/-- Path resolution in the words of the claim: intermediate segments
resolve to the FIRST matching node, the terminal segment returns ALL
matching nodes. -/
def specNodeList : RainbowDomNode → List Str → Except PyErr (List RainbowDomNode)
  | _, [] => .ok []
  | cur, [seg] =>
    match splitTag seg with
    | .error e => .error e
    | .ok tav => .ok (allMatches cur tav.1 tav.2.1 tav.2.2)
  | cur, seg :: s2 :: rest =>
    match splitTag seg with
    | .error e => .error e
    | .ok tav =>
      match (allMatches cur tav.1 tav.2.1 tav.2.2).head? with
      | none => .ok []
      | some n => specNodeList n (s2 :: rest)

/-- Per-cell substitution of the RX branch: byte 250 becomes the nodata
value, all other bytes pass through. -/
def rxSubst (nodata : ℤ) (b : ℕ) : ℤ := if (b : ℤ) = 250 then nodata else (b : ℤ)

/-! ## Concrete inputs used by the claim theorems -/

/-- A DX header whose required marker "BY" does not occur anywhere (all
other markers and the fixed-offset fields are well formed). -/
def dxHeaderNoBY : Str :=
  str "99010203100000509VS 2CO0CD2CS0EP0.50.50.50.50.50.50.50.5MS003abc"

/-- Content of a syntactically well-formed RADOLAN composite file whose
fixed-offset radar id field [8:13] holds "12345" (not "10000"): ASCII
header, terminator byte 0x03, then payload bytes. -/
def radolanFileC1 : Str :=
  str "SF03095012345VS 2SW 2.13.1PR E-01INT  60GP 450x 450MS 58<asb,boo>"
    ++ Char.ofNat 3 :: str "XY"

/-- Leaf node of the synthetic Rainbow tree. -/
def leafC (v : String) : RainbowDomNode := .mk (str "c") (str v) [] []

/-- First of two same-named siblings (attribute id=1). -/
def siblingB1 : RainbowDomNode :=
  .mk (str "b") [] [(str "id", str "1")] [(str "c", [leafC "x"])]

/-- Second of two same-named siblings (attribute id=2), with two "c"
children. -/
def siblingB2 : RainbowDomNode :=
  .mk (str "b") [] [(str "id", str "2")] [(str "c", [leafC "y", leafC "z"])]

/-- Synthetic tree with duplicate sibling names in the "b" bucket. -/
def dupRoot : RainbowDomNode :=
  .mk (str "root") [] [] [(str "b", [siblingB1, siblingB2])]

/-! ## Helper lemmas -/

/-- Membership in `indicesWhere` is exactly satisfaction at that index. -/
theorem mem_indicesWhere {p : α → Bool} :
    ∀ (l : List α) (i : ℕ), i ∈ indicesWhere p l ↔ ∃ h : i < l.length, p (l.get ⟨i, h⟩) = true := by
  intro l
  induction l with
  | nil => intro i; simp [indicesWhere]
  | cons a t ih =>
    intro i
    cases i with
    | zero =>
      by_cases hp : p a <;> simp [indicesWhere, hp]
    | succ k =>
      have : (k + 1 ∈ indicesWhere p (a :: t)) ↔ k ∈ indicesWhere p t := by
        by_cases hp : p a <;> simp [indicesWhere, hp]
      rw [this, ih k]
      simp

/-- `getD` after `map` evaluates the function at the list element. -/
theorem getD_map_lt (l : List α) (f : α → β) (d : β) :
    ∀ (i : ℕ) (h : i < l.length), (l.map f).getD i d = f (l.get ⟨i, h⟩) := by
  induction l with
  | nil => intro i h; exact absurd h (by simp)
  | cons a t ih =>
    intro i h
    cases i with
    | zero => rfl
    | succ k => exact ih k (by simpa using h)

/-- `chunkRows` always produces the requested number of rows. -/
theorem chunkRows_length (r c : ℕ) : ∀ l : List ℤ, (chunkRows r c l).length = r := by
  induction r with
  | zero => intro l; rfl
  | succ k ih => intro l; simp [chunkRows, ih]

/-- Rows of `chunkRows` have the requested length when the element count
matches. -/
theorem chunkRows_row_length (c : ℕ) :
    ∀ (r : ℕ) (l : List ℤ), l.length = r * c → ∀ row ∈ chunkRows r c l, row.length = c := by
  intro r
  induction r with
  | zero => intro l _ row hrow; simp [chunkRows] at hrow
  | succ k ih =>
    intro l hl row hrow
    simp only [chunkRows, List.mem_cons] at hrow
    rcases hrow with h | h
    · subst h
      simp only [List.length_take]
      have : c ≤ l.length := by rw [hl, Nat.succ_mul]; omega
      omega
    · exact ih (l.drop c) (by simp [hl, Nat.succ_mul]) row h

/-- Flattening `chunkRows` recovers the flat list when the element count
matches. -/
theorem chunkRows_flatten (c : ℕ) :
    ∀ (r : ℕ) (l : List ℤ), l.length = r * c → (chunkRows r c l).flatten = l := by
  intro r
  induction r with
  | zero => intro l hl; simp [chunkRows]; exact List.eq_nil_of_length_eq_zero (by simpa using hl)
  | succ k ih =>
    intro l hl
    simp only [chunkRows, List.flatten_cons]
    rw [ih (l.drop c) (by simp [hl, Nat.succ_mul])]
    exact List.take_append_drop c l

/-- `rleExpand` distributes over cons. -/
theorem rleExpand_cons (v : ℕ) (l : List ℕ) :
    rleExpand (v :: l)
      = (if dxFlagged v then List.replicate (v &&& 4095) 0 else [v]) ++ rleExpand l := by
  simp [rleExpand]

/-- A list with no flagged value expands to itself. -/
theorem rleExpand_flagfree : ∀ l : List ℕ, indicesWhere dxFlagged l = [] → rleExpand l = l := by
  intro l
  induction l with
  | nil => intro _; rfl
  | cons v t ih =>
    intro h
    simp only [indicesWhere, List.append_eq_nil, List.map_eq_nil_iff] at h
    have hv : dxFlagged v = false := by
      by_contra hb
      simp [Bool.not_eq_false] at hb
      simp [hb] at h
    rw [rleExpand_cons, hv]
    simp [ih h.2]

/-- Prepending one element shifts the flag positions by one without
changing the loop result. -/
theorem unpackDXLoop_shift (v : ℕ) (raw : List ℕ) :
    ∀ l : List ℕ, unpackDXLoop (v :: raw) (l.map (· + 1)) = unpackDXLoop raw l := by
  intro l
  induction l with
  | nil => rfl
  | cons i t ih =>
    cases t with
    | nil => simp [unpackDXLoop]
    | cons j t2 =>
      simp only [List.map_cons] at ih ⊢
      simp only [unpackDXLoop, List.getD_cons_succ, List.take_succ_cons, List.drop_succ_cons, ih]

/-- The performance loop of `unpackDX` computes the naive run-length
expansion whenever at least one value is flagged. -/
theorem unpackDX_expand :
    ∀ (raw : List ℕ) (i : ℕ) (rest : List ℕ), indicesWhere dxFlagged raw = i :: rest →
      raw.take i ++ unpackDXLoop raw (i :: rest) = rleExpand raw := by
  intro raw
  induction raw with
  | nil => intro i rest h; simp [indicesWhere] at h
  | cons v t ih =>
    intro i rest h
    rw [rleExpand_cons]
    cases hv : dxFlagged v with
    | true =>
      rw [if_pos rfl]
      simp only [indicesWhere, hv, if_true, List.singleton_append, List.cons.injEq] at h
      obtain ⟨hi, hrest⟩ := h
      subst hi
      subst hrest
      cases hidx : indicesWhere dxFlagged t with
      | nil =>
        simp only [List.map_nil, List.take_zero, List.nil_append, unpackDXLoop,
          List.getD_cons_zero, List.drop_succ_cons, List.drop_zero]
        rw [rleExpand_flagfree t hidx]
      | cons i2 r2 =>
        simp only [List.map_cons, List.take_zero, List.nil_append, unpackDXLoop,
          List.getD_cons_zero, List.take_succ_cons, List.drop_succ_cons, List.drop_zero]
        have hshift := unpackDXLoop_shift v t (i2 :: r2)
        simp only [List.map_cons] at hshift
        rw [hshift, ← ih i2 r2 hidx]
        simp
    | false =>
      rw [if_neg (by simp [hv])]
      simp [indicesWhere, hv] at h
      cases hidx : indicesWhere dxFlagged t with
      | nil => rw [hidx] at h; simp at h
      | cons i2 r2 =>
        rw [hidx] at h
        simp only [List.map_cons, List.cons.injEq] at h
        rw [← h.1, ← h.2]
        simp only [List.take_succ_cons]
        have hshift := unpackDXLoop_shift v t (i2 :: r2)
        simp only [List.map_cons] at hshift
        rw [List.cons_append, hshift, List.singleton_append, ih i2 r2 hidx]

/-- With the terminator still unseen, the DX header-scan loop never
finishes, whatever fuel it is given: once the source is exhausted every
iteration reads the empty string and leaves the state unchanged. -/
theorem dxScanFuel_spin :
    ∀ (n : ℕ) (rem : Str), Char.ofNat 3 ∉ rem → ∀ hdr, dxScanFuel n rem hdr false = none := by
  intro n
  induction n with
  | zero => intro rem _ hdr; rfl
  | succ k ih =>
    intro rem h hdr
    cases rem with
    | nil => exact ih [] (by simp) hdr
    | cons c r =>
      have hc : (c == Char.ofNat 3) = false := by
        simp only [beq_eq_false_iff_ne, ne_eq]
        intro he
        exact h (he ▸ List.mem_cons_self c r)
      simp only [dxScanFuel, hc, Bool.false_eq_true, if_false]
      exact ih r (fun hm => h (List.mem_cons_of_mem c hm)) (hdr ++ [c])

/-- The RADOLAN header-scan loop likewise never finishes when the source
contains no terminator byte. -/
theorem radScanFuel_spin :
    ∀ (n : ℕ) (rem : Str), Char.ofNat 3 ∉ rem → ∀ hdr, radScanFuel n rem hdr = none := by
  intro n
  induction n with
  | zero => intro rem _ hdr; rfl
  | succ k ih =>
    intro rem h hdr
    cases rem with
    | nil => exact ih [] (by simp) hdr
    | cons c r =>
      have hc : (c == Char.ofNat 3) = false := by
        simp only [beq_eq_false_iff_ne, ne_eq]
        intro he
        exact h (he ▸ List.mem_cons_self c r)
      simp only [radScanFuel, hc, Bool.false_eq_true, if_false]
      exact ih r (fun hm => h (List.mem_cons_of_mem c hm)) (hdr ++ [c])

/-- `indicesWhere` commutes with `map`. -/
theorem indicesWhere_map (p : β → Bool) (f : α → β) :
    ∀ l : List α, indicesWhere p (l.map f) = indicesWhere (fun a => p (f a)) l := by
  intro l
  induction l with
  | nil => rfl
  | cons a t ih => simp [indicesWhere, ih]

/-- The RX substitution interacts with the 249 test as expected when the
nodata value is not itself 249. -/
theorem rxSubst_eq_249_iff (nodata : ℤ) (b : ℕ) (hnd : nodata ≠ 249) :
    rxSubst nodata b = 249 ↔ b = 249 := by
  unfold rxSubst
  by_cases hb : (b : ℤ) = 250
  · have hb2 : b = 250 := by exact_mod_cast hb
    simp [hb, hnd, hb2]
  · simp only [hb, if_false]
    exact_mod_cast Iff.rfl

/-- The RX substitution written with a natural-number test. -/
theorem rxSubst_eq_ite (nodata : ℤ) (b : ℕ) :
    rxSubst nodata b = if b = 250 then nodata else (b : ℤ) := by
  unfold rxSubst
  by_cases hb : b = 250
  · simp [hb]
  · rw [if_neg hb, if_neg (by exact_mod_cast hb)]

/-! ## Claim theorems -/

/-- C1.  The claim says a non-composite radar id makes
`read_RADOLAN_composite` warn and proceed, never fail.  On the code the
call fails before the radar id is even compared: the parsed header
carries no "radarid" key at all (`parse_DWD_quant_composite_header` never
stores it), so the access `attrs["radarid"]` raises `KeyError` for every
file — here a well-formed file whose radar id field [8:13] is "12345". -/
theorem read_RADOLAN_radarid_keyerror :
    read_RADOLAN_composite 100 radolanFileC1 (-9999)
        = some (Except.error (PyErr.keyError "radarid"))
      ∧ pySlice radolanFileC1 8 13 = str "12345" :=
  ⟨rfl, rfl⟩

/-- C2.  The claim says a beam whose raw bin sequence contains no flagged
value is decoded and returned regardless of its length.  On the code,
`unpackDX` asserts `raw.size == 128` in exactly that case: a flag-free
beam of five bins raises `AssertionError`. -/
theorem unpackDX_flagfree_asserts :
    unpackDX [10, 20, 30, 40, 50] = Except.error PyErr.assertionError := rfl

/-- C3 counterexample.  The claim says every depth other than 8/16/32
fails with InvalidDepth; depth 9 is accepted (Python 2 floor division
`9 / 8 = 1`) and yields width 1 with the big-endian marker on a
little-endian host. -/
theorem get_RB_data_layout_depth9 :
    get_RB_data_layout false 9 = Except.ok (1, str ">u1")
      ∧ ¬(9 = 8 ∨ 9 = 16 ∨ 9 = 32) :=
  ⟨rfl, by decide⟩

/-- C3 amended.  `get_RB_data_layout` maps depths 8/16/32 to widths
1/2/4 with byte order opposite to the host-native order, but the depth
check floors: exactly the depths whose floor-quotient by 8 is 1, 2 or 4
are accepted; all others raise the InvalidDepth `ValueError`. -/
theorem get_RB_data_layout_floor_division :
    ∀ hb : Bool,
      get_RB_data_layout hb 8 = Except.ok (1, [(if hb then '<' else '>'), 'u', '1'])
      ∧ get_RB_data_layout hb 16 = Except.ok (2, [(if hb then '<' else '>'), 'u', '2'])
      ∧ get_RB_data_layout hb 32 = Except.ok (4, [(if hb then '<' else '>'), 'u', '4'])
      ∧ ∀ d : ℤ, (get_RB_data_layout hb d).isOk = true
          ↔ (Int.fdiv d 8 = 1 ∨ Int.fdiv d 8 = 2 ∨ Int.fdiv d 8 = 4) := by
  intro hb
  refine ⟨by cases hb <;> rfl, by cases hb <;> rfl, by cases hb <;> rfl, ?_⟩
  intro d
  by_cases hc : Int.fdiv d 8 = 1 ∨ Int.fdiv d 8 = 2 ∨ Int.fdiv d 8 = 4 <;>
    simp [get_RB_data_layout, hc, Except.isOk, Except.toBool]

/-- C4 counterexample.  The claim says the final byte is kept when the
header length is odd; with `bytes = 10` and an odd header length 3 the
code still drops it (6), while the claim prescribes 7. -/
theorem readDX_buflen_odd_header :
    readDX_buflen 10 3 = 6 ∧ buflenSpec 10 3 = 7 := by
  constructor <;> rfl

/-- C4 amended.  The payload length of `readDX` is `bytes` minus the
header length rounded down to even: the final byte is dropped exactly
when that difference is odd, regardless of the header length parity. -/
theorem readDX_buflen_rounds_down_to_even :
    ∀ bytes hlen : ℤ,
      readDX_buflen bytes hlen % 2 = 0
      ∧ (readDX_buflen bytes hlen = bytes - hlen ↔ (bytes - hlen) % 2 = 0)
      ∧ (readDX_buflen bytes hlen = bytes - hlen
          ∨ readDX_buflen bytes hlen = bytes - hlen - 1) := by
  intro bytes hlen
  by_cases hpar : (bytes - hlen) % 2 = 0
  · simp [readDX_buflen, hpar]
  · simp [readDX_buflen, hpar]
    omega

/-- C5 counterexample.  The claim says `parse_DX_header` fails with a
MissingTag error whenever a required marker is missing.  This header
contains no "BY" marker at all, yet parsing succeeds (the source never
checks the `find` results, so no failure of any kind occurs). -/
theorem parse_DX_header_missing_BY_no_error :
    pyFind dxHeaderNoBY (str "BY") = -1 ∧ (parse_DX_header dxHeaderNoBY).isOk = true :=
  ⟨rfl, rfl⟩

/-- C5 amended.  `parse_DX_header` locates markers by first-occurrence
substring search and never checks presence: an absent marker yields
position -1 and the field is sliced relative to that position, so a
header lacking "BY" parses successfully with `bytes` silently misread
from characters 1..5 of the header (here 90102). -/
theorem parse_DX_header_missing_BY_misreads :
    parse_DX_header dxHeaderNoBY
      = Except.ok ⟨str "99", ⟨1, 2, 3, 5, 2009, 0⟩, str "10000", 90102, str " 2",
                   0, 2, 0, List.replicate 8 (mkRat 1 2), str "abc"⟩ := rfl

/-- C6.  The claim says the header scans of `readDX` and
`read_RADOLAN_composite` terminate with a TruncatedHeader error when the
source ends before a terminator byte.  On the code both loops spin
forever: reading past the end yields the empty string, which is appended
to the header and the loop repeats — for the terminator-free source
"AB", no amount of fuel makes either scan return. -/
theorem headerScan_no_terminator_never_returns :
    ∀ n : ℕ, dxScanFuel n (str "AB") [] false = none ∧ radScanFuel n (str "AB") [] = none := by
  intro n
  exact ⟨dxScanFuel_spin n (str "AB") (by decide) [],
         radScanFuel_spin n (str "AB") (by decide) []⟩

/-- C7.  The claim says a 16-bit cell without flag bits decodes to
`(raw & 0x0FFF) * precision` for every precision from 10⁻³ to 10³.  On
the code the decoded array is an integer array multiplied in place by
the float precision, so for precision 10⁻¹ the cell value 5 decodes to
the truncated 0 instead of the exact 1/2 (newer numpy versions refuse
the in-place cast outright — either way the claimed value is not
produced). -/
theorem radolan16_fractional_precision_truncated :
    radolan16Decode (str "SF") (pyPow10 (-1)) 1 1 (-9999) [5] = Except.ok ([[0]], [])
      ∧ ((5 : ℚ) * pyPow10 (-1) ≠ ((0 : ℤ) : ℚ)) := by
  refine ⟨rfl, ?_⟩
  have h : pyPow10 (-1) = mkRat 1 10 := rfl
  rw [h, Rat.mkRat_eq_div]
  norm_num

/-- C8.  Whenever `unpackDX` returns a beam, that beam is exactly the
run-length expansion the claim describes: every flagged value expands to
`value & 4095` zero bins and every unflagged value is emitted exactly
once. -/
theorem unpackDX_matches_rleExpand :
    ∀ (raw : List ℕ) (beam : List ℕ), unpackDX raw = Except.ok beam → beam = rleExpand raw := by
  intro raw beam h
  unfold unpackDX at h
  revert h
  cases hidx : indicesWhere dxFlagged raw with
  | nil =>
    intro h
    by_cases hl : raw.length = 128
    · rw [if_pos hl] at h
      cases h
      exact (rleExpand_flagfree raw hidx).symm
    · rw [if_neg hl] at h
      cases h
  | cons i rest =>
    intro h
    cases h
    exact unpackDX_expand raw i rest hidx

/-- C8 witness (Scenario A): a beam of five unflagged bins with a
mid-beam flagged zero run of count 3 decodes to a beam of length 8 with
the three zero entries at the run position, and that beam agrees with
the run-length expansion. -/
theorem unpackDX_matches_rleExpand_witness :
    unpackDX [10, 20, 4099, 30, 40, 50] = Except.ok [10, 20, 0, 0, 0, 30, 40, 50]
      ∧ [10, 20, 0, 0, 0, 30, 40, 50] = rleExpand [10, 20, 4099, 30, 40, 50] :=
  ⟨rfl, unpackDX_matches_rleExpand [10, 20, 4099, 30, 40, 50] [10, 20, 0, 0, 0, 30, 40, 50] rfl⟩

/-- C9.  For the RX product, `read_RADOLAN_composite` (payload branch
`radolanRXDecode`) maps every byte 250 to the nodata sentinel, leaves
every byte 249 in place while recording its flat linear index in the
clutter set, and passes all other bytes through unscaled, for every grid
size. -/
theorem radolanRXDecode_spec :
    ∀ (nrow ncol : ℕ) (nodata : ℤ) (payload : List ℕ),
      payload.length = nrow * ncol → nodata ≠ 249 →
      ∃ grid clutter,
        radolanRXDecode nrow ncol nodata payload = Except.ok (grid, clutter)
        ∧ grid.length = nrow
        ∧ (∀ row ∈ grid, row.length = ncol)
        ∧ (∀ (i : ℕ) (hi : i < payload.length),
            grid.flatten.getD i 0
              = if payload.get ⟨i, hi⟩ = 250 then nodata else (payload.get ⟨i, hi⟩ : ℤ))
        ∧ (∀ j : ℕ, j ∈ clutter ↔ ∃ hj : j < payload.length, payload.get ⟨j, hj⟩ = 249) := by
  intro nrow ncol nodata payload hlen hnd
  have htake : payload.take (nrow * ncol) = payload := by
    rw [← hlen]; exact List.take_length payload
  have hmaplen : (payload.map (rxSubst nodata)).length = nrow * ncol := by
    simpa using hlen
  have hdecode : radolanRXDecode nrow ncol nodata payload
      = (match reshapeGrid nrow ncol (payload.map (rxSubst nodata)) with
         | .ok grid => Except.ok (grid,
             indicesWhere (fun v => v = 249) (payload.map (rxSubst nodata)))
         | .error e => Except.error e) := by
    simp only [radolanRXDecode]
    rw [htake, List.map_map]
    rfl
  have hreshape : reshapeGrid nrow ncol (payload.map (rxSubst nodata))
      = Except.ok (chunkRows nrow ncol (payload.map (rxSubst nodata))) := by
    simp [reshapeGrid, hmaplen]
  refine ⟨chunkRows nrow ncol (payload.map (rxSubst nodata)),
          indicesWhere (fun v => v = 249) (payload.map (rxSubst nodata)), ?_, ?_, ?_, ?_, ?_⟩
  · rw [hdecode, hreshape]
  · exact chunkRows_length nrow ncol _
  · exact chunkRows_row_length ncol nrow _ hmaplen
  · intro i hi
    rw [chunkRows_flatten ncol nrow _ hmaplen, getD_map_lt payload (rxSubst nodata) 0 i hi]
    exact rxSubst_eq_ite nodata _
  · intro j
    rw [indicesWhere_map (fun v => v = 249) (rxSubst nodata) payload]
    rw [mem_indicesWhere]
    constructor
    · rintro ⟨hj, hp⟩
      refine ⟨hj, ?_⟩
      have hp2 : rxSubst nodata (payload.get ⟨j, hj⟩) = 249 := by simpa using hp
      exact (rxSubst_eq_249_iff nodata _ hnd).mp hp2
    · rintro ⟨hj, hp⟩
      refine ⟨hj, ?_⟩
      simpa using (rxSubst_eq_249_iff nodata _ hnd).mpr hp

/-- C9 witness (Scenario B): the 2×2 RX payload [10, 20, 250, 249]
decodes to the grid [[10, 20], [nodata, 249]] with clutter index set
{3}, and the decode satisfies the per-cell specification. -/
theorem radolanRXDecode_spec_witness :
    radolanRXDecode 2 2 (-9999) [10, 20, 250, 249] = Except.ok ([[10, 20], [-9999, 249]], [3])
      ∧ ∃ grid clutter,
          radolanRXDecode 2 2 (-9999) [10, 20, 250, 249] = Except.ok (grid, clutter)
          ∧ grid.length = 2
          ∧ (∀ row ∈ grid, row.length = 2)
          ∧ (∀ (i : ℕ) (hi : i < ([10, 20, 250, 249] : List ℕ).length),
              grid.flatten.getD i 0
                = if ([10, 20, 250, 249] : List ℕ).get ⟨i, hi⟩ = 250 then (-9999 : ℤ)
                  else (([10, 20, 250, 249] : List ℕ).get ⟨i, hi⟩ : ℤ))
          ∧ (∀ j : ℕ, j ∈ clutter
              ↔ ∃ hj : j < ([10, 20, 250, 249] : List ℕ).length,
                  ([10, 20, 250, 249] : List ℕ).get ⟨j, hj⟩ = 249) :=
  ⟨rfl, radolanRXDecode_spec 2 2 (-9999) [10, 20, 250, 249] (by decide) (by decide)⟩

/-- The two ways of filtering a bucket by one segment predicate agree. -/
theorem nodeListFilter_eq_filter (bucket : List RainbowDomNode) (a av : Option Str) :
    nodeListFilter bucket a av = bucket.filter (segMatches a av) := by
  cases a with
  | none =>
    have h : segMatches none av = fun _ => true := rfl
    rw [h, List.filter_true]
    rfl
  | some t => cases av <;> rfl

/-- The loop of `nodeList` computes the spec resolution: first match at
intermediate segments, all matches at the terminal segment. -/
theorem nodeListAux_eq_spec :
    ∀ (segs : List Str) (cur : RainbowDomNode),
      RainbowDomNode.nodeListAux cur segs = specNodeList cur segs := by
  intro segs
  induction segs with
  | nil => intro cur; rfl
  | cons seg rest ih =>
    intro cur
    cases rest with
    | nil =>
      cases hsp : splitTag seg with
      | error e => simp [RainbowDomNode.nodeListAux, specNodeList, hsp]
      | ok tav =>
        obtain ⟨t, a, av⟩ := tav
        simp only [RainbowDomNode.nodeListAux, specNodeList, hsp]
        cases hlk : lookupStr cur.childMap t with
        | none => simp [allMatches, hlk]
        | some bucket =>
          have hf := nodeListFilter_eq_filter bucket a av
          have ham : allMatches cur t a av = nodeListFilter bucket a av := by
            rw [hf]; simp [allMatches, hlk]
          cases hft : nodeListFilter bucket a av with
          | nil => simp [ham, hft]
          | cons n0 ns => simp [ham, hft]
    | cons s2 r2 =>
      cases hsp : splitTag seg with
      | error e => simp [RainbowDomNode.nodeListAux, specNodeList, hsp]
      | ok tav =>
        obtain ⟨t, a, av⟩ := tav
        simp only [RainbowDomNode.nodeListAux, specNodeList, hsp]
        cases hlk : lookupStr cur.childMap t with
        | none => simp [allMatches, hlk]
        | some bucket =>
          have hf := nodeListFilter_eq_filter bucket a av
          have ham : allMatches cur t a av = nodeListFilter bucket a av := by
            rw [hf]; simp [allMatches, hlk]
          cases hft : nodeListFilter bucket a av with
          | nil => simp [ham, hft]
          | cons n0 ns =>
            simp only [ham, hft, List.head?_cons]
            exact ih n0

/-- C10.  `RainbowDomNode.nodeList` resolves a slash-separated path by
taking at each intermediate segment the FIRST node of the same-name
bucket satisfying the optional attribute predicate and returning ALL
matches of the terminal segment, as the spec-side resolver states; on
the synthetic tree with duplicate "b" siblings, the path "b@id=2/c"
deterministically selects the second sibling and returns both of its
"c" children. -/
theorem nodeList_first_match_then_all :
    (∀ (n : RainbowDomNode) (path : Str),
        RainbowDomNode.nodeList n path = specNodeList n (pySplitChar '/' path))
      ∧ RainbowDomNode.nodeList dupRoot (str "b@id=2/c") = Except.ok [leafC "y", leafC "z"] := by
  constructor
  · intro n path
    exact nodeListAux_eq_spec (pySplitChar '/' path) n
  · rfl
